import Mathlib

/-!
Verification of the CPU-side software rendering pipeline
(`src/main.rs`, `src/camera.rs`, `src/skybox.rs`, `src/vertex.rs`).

Machine `f32` values are embedded as exact rationals (`ℚ`), or as exact
reals (`ℝ`) where the property is stated "in exact real arithmetic";
`usize` values are embedded as `ℕ` with explicit `% 2^64` wrap-around
where Rust release-mode overflow semantics matter.  Trigonometric values
produced by `f32::sin_cos` are passed as explicit `(s, c)` arguments,
since the geometric claims hold for arbitrary such values.
-/

/-- A 3-component vector, embedding `nalgebra_glm::Vec3` with exact scalars. -/
structure V3 (α : Type) where
  x : α
  y : α
  z : α
deriving DecidableEq, Repr

instance {α : Type} [Add α] : Add (V3 α) :=
  ⟨fun a b => ⟨a.x + b.x, a.y + b.y, a.z + b.z⟩⟩

instance {α : Type} [Sub α] : Sub (V3 α) :=
  ⟨fun a b => ⟨a.x - b.x, a.y - b.y, a.z - b.z⟩⟩

instance {α : Type} [Mul α] : SMul α (V3 α) :=
  ⟨fun s v => ⟨s * v.x, s * v.y, s * v.z⟩⟩

/-- Dot product of two 3-vectors (`nalgebra_glm` `dot`). -/
def V3.dot {α : Type} [Mul α] [Add α] (a b : V3 α) : α :=
  a.x * b.x + a.y * b.y + a.z * b.z

/-- Cross product of two 3-vectors (`nalgebra_glm` `cross`). -/
def V3.cross {α : Type} [Mul α] [Sub α] (a b : V3 α) : V3 α :=
  ⟨a.y * b.z - a.z * b.y, a.z * b.x - a.x * b.z, a.x * b.y - a.y * b.x⟩

@[simp] theorem V3.add_def {α : Type} [Add α] (a b : V3 α) :
    a + b = ⟨a.x + b.x, a.y + b.y, a.z + b.z⟩ := rfl

@[simp] theorem V3.sub_def {α : Type} [Sub α] (a b : V3 α) :
    a - b = ⟨a.x - b.x, a.y - b.y, a.z - b.z⟩ := rfl

@[simp] theorem V3.smul_def {α : Type} [Mul α] (s : α) (v : V3 α) :
    s • v = ⟨s * v.x, s * v.y, s * v.z⟩ := rfl

theorem V3.ext_iff' {α : Type} (a b : V3 α) :
    a = b ↔ a.x = b.x ∧ a.y = b.y ∧ a.z = b.z := by
  constructor
  · intro h; subst h; exact ⟨rfl, rfl, rfl⟩
  · rintro ⟨hx, hy, hz⟩; cases a; cases b; simp_all

/-- A 4-component vector, embedding `nalgebra_glm::Vec4` with exact scalars. -/
structure V4 where
  x : ℚ
  y : ℚ
  z : ℚ
  w : ℚ
deriving DecidableEq, Repr

/-- A 4×4 matrix over exact rationals, embedding `nalgebra_glm::Mat4`.
Fields are named row-major: `mRC` is the entry in row R, column C, matching
the argument order of `Mat4::new` in the source. -/
structure M4 where
  m00 : ℚ
  m01 : ℚ
  m02 : ℚ
  m03 : ℚ
  m10 : ℚ
  m11 : ℚ
  m12 : ℚ
  m13 : ℚ
  m20 : ℚ
  m21 : ℚ
  m22 : ℚ
  m23 : ℚ
  m30 : ℚ
  m31 : ℚ
  m32 : ℚ
  m33 : ℚ
deriving DecidableEq, Repr

/-- Matrix–matrix product for 4×4 matrices (row i of `a` dotted with column j of `b`). -/
def M4.mul (a b : M4) : M4 where
  m00 := a.m00 * b.m00 + a.m01 * b.m10 + a.m02 * b.m20 + a.m03 * b.m30
  m01 := a.m00 * b.m01 + a.m01 * b.m11 + a.m02 * b.m21 + a.m03 * b.m31
  m02 := a.m00 * b.m02 + a.m01 * b.m12 + a.m02 * b.m22 + a.m03 * b.m32
  m03 := a.m00 * b.m03 + a.m01 * b.m13 + a.m02 * b.m23 + a.m03 * b.m33
  m10 := a.m10 * b.m00 + a.m11 * b.m10 + a.m12 * b.m20 + a.m13 * b.m30
  m11 := a.m10 * b.m01 + a.m11 * b.m11 + a.m12 * b.m21 + a.m13 * b.m31
  m12 := a.m10 * b.m02 + a.m11 * b.m12 + a.m12 * b.m22 + a.m13 * b.m32
  m13 := a.m10 * b.m03 + a.m11 * b.m13 + a.m12 * b.m23 + a.m13 * b.m33
  m20 := a.m20 * b.m00 + a.m21 * b.m10 + a.m22 * b.m20 + a.m23 * b.m30
  m21 := a.m20 * b.m01 + a.m21 * b.m11 + a.m22 * b.m21 + a.m23 * b.m31
  m22 := a.m20 * b.m02 + a.m21 * b.m12 + a.m22 * b.m22 + a.m23 * b.m32
  m23 := a.m20 * b.m03 + a.m21 * b.m13 + a.m22 * b.m23 + a.m23 * b.m33
  m30 := a.m30 * b.m00 + a.m31 * b.m10 + a.m32 * b.m20 + a.m33 * b.m30
  m31 := a.m30 * b.m01 + a.m31 * b.m11 + a.m32 * b.m21 + a.m33 * b.m31
  m32 := a.m30 * b.m02 + a.m31 * b.m12 + a.m32 * b.m22 + a.m33 * b.m32
  m33 := a.m30 * b.m03 + a.m31 * b.m13 + a.m32 * b.m23 + a.m33 * b.m33

/-- Matrix–vector product `m * v` for a 4-vector. -/
def M4.mulVec (m : M4) (v : V4) : V4 where
  x := m.m00 * v.x + m.m01 * v.y + m.m02 * v.z + m.m03 * v.w
  y := m.m10 * v.x + m.m11 * v.y + m.m12 * v.z + m.m13 * v.w
  z := m.m20 * v.x + m.m21 * v.y + m.m22 * v.z + m.m23 * v.w
  w := m.m30 * v.x + m.m31 * v.y + m.m32 * v.z + m.m33 * v.w

/-- Action of a 4×4 matrix on a 3D point via the homogeneous embedding
`(p.x, p.y, p.z, 1)`, keeping the first three components. -/
def M4.apply3 (m : M4) (p : V3 ℚ) : V3 ℚ :=
  let v := m.mulVec ⟨p.x, p.y, p.z, 1⟩
  ⟨v.x, v.y, v.z⟩

/-- `create_viewport_matrix` from `src/main.rs` lines 84–91: the arguments of
`Mat4::new` are listed row-major, exactly as in the source. -/
def create_viewport_matrix (width height : ℚ) : M4 where
  m00 := width / 2
  m01 := 0
  m02 := 0
  m03 := width / 2
  m10 := 0
  m11 := -height / 2
  m12 := 0
  m13 := height / 2
  m20 := 0
  m21 := 0
  m22 := 1
  m23 := 0
  m30 := 0
  m31 := 0
  m32 := 0
  m33 := 1

/-- Depth comparison against a stored depth cell.  `none` is the "far"
sentinel every depth cell is reset to on clear (`f32::INFINITY` in the code),
so any finite incoming depth passes; against a stored finite depth the test
is the strict `new < stored` comparison. -/
def depth_lt (d : ℚ) : Option ℚ → Bool
  | none => true
  | some stored => decide (d < stored)

/-- Modelled from the spec: `framebuffer.rs` (module `framebuffer`) is absent
from `src/`; the spec describes the `Framebuffer` as a width × height color
buffer plus a parallel depth buffer, a background color, and a single mutable
"current draw color" register consulted by point-writes.  Buffers are embedded
as total functions from pixel coordinates. -/
structure Framebuffer where
  width : ℕ
  height : ℕ
  background_color : ℕ
  current_color : ℕ
  buffer : ℕ × ℕ → ℕ
  zbuffer : ℕ × ℕ → Option ℚ

/-- Modelled from the spec: `clear()` resets every pixel to the background
color and every depth cell to the far sentinel. -/
def Framebuffer.clear (fb : Framebuffer) : Framebuffer :=
  { fb with
    buffer := fun _ => fb.background_color,
    zbuffer := fun _ => none }

/-- Modelled from the spec: `set_current_color(c)` sets the ambient paint-color
register consulted by subsequent point-writes. -/
def Framebuffer.set_current_color (fb : Framebuffer) (c : ℕ) : Framebuffer :=
  { fb with current_color := c }

/-- Modelled from the spec: `point(x, y, depth)` writes the current paint color
at `(x, y)` only if the coordinates are in bounds and the depth test passes
(new depth strictly less than stored depth), updating the stored depth;
otherwise it is a no-op. -/
def Framebuffer.point (fb : Framebuffer) (x y : ℕ) (depth : ℚ) : Framebuffer :=
  if x < fb.width ∧ y < fb.height ∧ depth_lt depth (fb.zbuffer (x, y)) = true then
    { fb with
      buffer := fun p => if p = (x, y) then fb.current_color else fb.buffer p,
      zbuffer := fun p => if p = (x, y) then some depth else fb.zbuffer p }
  else fb

/-- Claim C1: after a clear, two point-writes to the same in-bounds pixel with
depths `d1 < d2` leave the color written at depth `d1`, in either processing
order; and in general an in-bounds write takes effect on the color buffer iff
its depth passes the strict depth test against the stored depth. -/
theorem depth_test_order_independent (fb : Framebuffer) (x y : ℕ)
    (c1 c2 : ℕ) (d1 d2 : ℚ)
    (hx : x < fb.width) (hy : y < fb.height) (hd : d1 < d2) :
    ((((fb.clear.set_current_color c1).point x y d1).set_current_color c2).point
        x y d2).buffer (x, y) = c1 ∧
      ((((fb.clear.set_current_color c2).point x y d2).set_current_color c1).point
          x y d1).buffer (x, y) = c1 ∧
      ∀ (fb' : Framebuffer) (c : ℕ) (d : ℚ), x < fb'.width → y < fb'.height →
        ((fb'.set_current_color c).point x y d).buffer (x, y) =
          if depth_lt d (fb'.zbuffer (x, y)) then c else fb'.buffer (x, y) := by
  have heffect : ∀ (fb' : Framebuffer) (c : ℕ) (d : ℚ), x < fb'.width →
      y < fb'.height →
      ((fb'.set_current_color c).point x y d).buffer (x, y) =
        if depth_lt d (fb'.zbuffer (x, y)) then c else fb'.buffer (x, y) := by
    intro fb' c d hx' hy'
    by_cases hpass : depth_lt d (fb'.zbuffer (x, y)) = true
    · rw [Framebuffer.point, if_pos ⟨hx', hy', hpass⟩]
      simp [Framebuffer.set_current_color, hpass]
    · rw [Framebuffer.point, if_neg (by simp [Framebuffer.set_current_color, hpass])]
      simp [Framebuffer.set_current_color,
        Bool.not_eq_true _ ▸ hpass]
  refine ⟨?_, ?_, heffect⟩
  · have h1 : ((fb.clear.set_current_color c1).point x y d1) =
        { fb.clear.set_current_color c1 with
          buffer := fun p => if p = (x, y) then c1 else fb.background_color,
          zbuffer := fun p => if p = (x, y) then some d1 else none } := by
      rw [Framebuffer.point,
        if_pos (⟨hx, hy, by simp [Framebuffer.clear, Framebuffer.set_current_color, depth_lt]⟩ :
          x < (fb.clear.set_current_color c1).width ∧
            y < (fb.clear.set_current_color c1).height ∧ _)]
      simp [Framebuffer.clear, Framebuffer.set_current_color]
    rw [h1, Framebuffer.point, if_neg]
    · simp [Framebuffer.set_current_color]
    · simp [Framebuffer.set_current_color, depth_lt, not_lt.mpr hd.le]
  · have h2 : ((fb.clear.set_current_color c2).point x y d2) =
        { fb.clear.set_current_color c2 with
          buffer := fun p => if p = (x, y) then c2 else fb.background_color,
          zbuffer := fun p => if p = (x, y) then some d2 else none } := by
      rw [Framebuffer.point,
        if_pos (⟨hx, hy, by simp [Framebuffer.clear, Framebuffer.set_current_color, depth_lt]⟩ :
          x < (fb.clear.set_current_color c2).width ∧
            y < (fb.clear.set_current_color c2).height ∧ _)]
      simp [Framebuffer.clear, Framebuffer.set_current_color]
    rw [h2, Framebuffer.point, if_pos]
    · simp [Framebuffer.set_current_color]
    · exact ⟨hx, hy, by simp [Framebuffer.set_current_color, depth_lt, hd]⟩

/-- Witness for claim C1, matching the spec's end-to-end scenario: a 4×4
framebuffer cleared to background `0x000000`, color `0xFFFFFF` written at
`(1,1)` with depth `1.0`, then `0x00FF00` attempted at `(1,1)` with depth
`2.0`, leaves pixel `(1,1) = 0xFFFFFF` in either order. -/
theorem depth_test_order_independent_witness :
    (((((Framebuffer.mk 4 4 0 0 (fun _ => 0)
          (fun _ => none)).clear.set_current_color 0xFFFFFF).point 1 1 1).set_current_color
            0x00FF00).point 1 1 2).buffer (1, 1) = 0xFFFFFF ∧
      (((((Framebuffer.mk 4 4 0 0 (fun _ => 0)
            (fun _ => none)).clear.set_current_color 0x00FF00).point 1 1 2).set_current_color
              0xFFFFFF).point 1 1 1).buffer (1, 1) = 0xFFFFFF ∧
      ∀ (fb' : Framebuffer) (c : ℕ) (d : ℚ), 1 < fb'.width → 1 < fb'.height →
        ((fb'.set_current_color c).point 1 1 d).buffer (1, 1) =
          if depth_lt d (fb'.zbuffer (1, 1)) then c else fb'.buffer (1, 1) :=
  depth_test_order_independent (Framebuffer.mk 4 4 0 0 (fun _ => 0) (fun _ => none))
    1 1 0xFFFFFF 0x00FF00 1 2 (by decide) (by decide) (by norm_num)

/-- The `Vertex` of `src/vertex.rs`: per-vertex attributes plus transformed
copies.  The packed `Color` is embedded as its hex value. -/
structure Vertex where
  position : V3 ℚ
  normal : V3 ℚ
  tex_coords : ℚ × ℚ
  color : ℕ
  transformed_position : V3 ℚ
  transformed_normal : V3 ℚ
deriving DecidableEq, Repr

/-- A convenient concrete vertex used by witnesses. -/
def sample_vertex (n : ℚ) : Vertex :=
  ⟨⟨n, 0, 0⟩, ⟨0, 1, 0⟩, (0, 0), 0, ⟨n, 0, 0⟩, ⟨0, 1, 0⟩⟩

/-- The backface-cull condition of the rasterization stage (`src/main.rs`
lines 165–168): the geometric normal is the cross product of the two edge
vectors `tri[1].position - tri[0].position` and `tri[2].position -
tri[0].position`, the view direction is `tri[0].position - (0, 0, 0)`, and the
triangle is skipped when their dot product is negative. -/
def is_backfacing (v1 v2 v3 : Vertex) : Prop :=
  ((v2.position - v1.position).cross (v3.position - v1.position)).dot
    (v1.position - ⟨0, 0, 0⟩) < 0

/-- The fragments one assembled triangle contributes in the rasterization
stage of `render` (`src/main.rs` lines 164–173): nothing if the backface cull
skips it, otherwise whatever the `triangle` rasterizer (the absent
`triangle.rs`) produces, taken here as an arbitrary function `tf`. -/
def triangle_fragments {F : Type} (tf : Vertex → Vertex → Vertex → List F)
    (v1 v2 v3 : Vertex) : List F :=
  if ((v2.position - v1.position).cross (v3.position - v1.position)).dot
      (v1.position - ⟨0, 0, 0⟩) < 0 then
    []
  else tf v1 v2 v3

/-- The whole rasterization loop of `render`: fragments accumulate by
`fragments.extend(triangle(..))` over the triangle list, i.e. a left fold
appending each triangle's contribution. -/
def rasterization_stage {F : Type} (tf : Vertex → Vertex → Vertex → List F)
    (tris : List (Vertex × Vertex × Vertex)) : List F :=
  tris.foldl (fun acc t => acc ++ triangle_fragments tf t.1 t.2.1 t.2.2) []

theorem rasterization_foldl_of_empty {F : Type}
    (tf : Vertex → Vertex → Vertex → List F)
    (tris : List (Vertex × Vertex × Vertex)) (acc : List F)
    (h : ∀ t ∈ tris, triangle_fragments tf t.1 t.2.1 t.2.2 = []) :
    tris.foldl (fun acc t => acc ++ triangle_fragments tf t.1 t.2.1 t.2.2) acc =
      acc := by
  induction tris generalizing acc with
  | nil => rfl
  | cons t rest ih =>
    rw [List.foldl_cons, h t (List.mem_cons_self t rest), List.append_nil]
    exact ih acc fun u hu => h u (List.mem_cons_of_mem t hu)

/-- Claim C2: the rasterizer takes the cross product of two edge vectors as
the geometric normal and `tri[0].position - (0,0,0)` as the view-direction
reference; whenever their dot product is negative the triangle contributes
zero fragments, whatever the triangle rasterizer would have produced, and a
list of triangles that are all backfacing produces zero fragments in total. -/
theorem backfacing_triangle_produces_no_fragments {F : Type}
    (tf : Vertex → Vertex → Vertex → List F) (v1 v2 v3 : Vertex)
    (h : is_backfacing v1 v2 v3) :
    triangle_fragments tf v1 v2 v3 = [] ∧
      ∀ tris : List (Vertex × Vertex × Vertex),
        (∀ t ∈ tris, is_backfacing t.1 t.2.1 t.2.2) →
          rasterization_stage tf tris = [] := by
  have hone : ∀ a b c : Vertex, is_backfacing a b c →
      triangle_fragments tf a b c = [] := by
    intro a b c habc
    unfold is_backfacing at habc
    rw [triangle_fragments, if_pos habc]
  refine ⟨hone v1 v2 v3 h, fun tris htris => ?_⟩
  exact rasterization_foldl_of_empty tf tris []
    fun t ht => hone t.1 t.2.1 t.2.2 (htris t ht)

/-- Witness for claim C2: a concrete backfacing triangle (first vertex at
`(0,0,1)`, edges spanning `(0,1,0)` and `(1,0,0)`, so the normal `(0,0,-1)`
against view direction `(0,0,1)` gives dot `-1 < 0`) contributes zero
fragments even under a rasterizer that returns a fragment for every
triangle. -/
theorem backfacing_triangle_produces_no_fragments_witness :
    triangle_fragments (fun _ _ _ => [(0 : ℕ)])
        ⟨⟨0, 0, 1⟩, ⟨0, 1, 0⟩, (0, 0), 0, ⟨0, 0, 1⟩, ⟨0, 1, 0⟩⟩
        ⟨⟨0, 1, 1⟩, ⟨0, 1, 0⟩, (0, 0), 0, ⟨0, 1, 1⟩, ⟨0, 1, 0⟩⟩
        ⟨⟨1, 0, 1⟩, ⟨0, 1, 0⟩, (0, 0), 0, ⟨1, 0, 1⟩, ⟨0, 1, 0⟩⟩ = [] :=
  (backfacing_triangle_produces_no_fragments (fun _ _ _ => [(0 : ℕ)])
    ⟨⟨0, 0, 1⟩, ⟨0, 1, 0⟩, (0, 0), 0, ⟨0, 0, 1⟩, ⟨0, 1, 0⟩⟩
    ⟨⟨0, 1, 1⟩, ⟨0, 1, 0⟩, (0, 0), 0, ⟨0, 1, 1⟩, ⟨0, 1, 0⟩⟩
    ⟨⟨1, 0, 1⟩, ⟨0, 1, 0⟩, (0, 0), 0, ⟨1, 0, 1⟩, ⟨0, 1, 0⟩⟩
    (by norm_num [is_backfacing, V3.cross, V3.dot])).1

/-- The per-index triple pushed by the primitive-assembly loop: the vertices
at `3k, 3k+1, 3k+2` when the source's guard `i + 2 < len` admits them (the
triple-`Option` match is `some` exactly when `3k + 2 < len`). -/
def assemble_pick (l : List Vertex) (k : ℕ) : Option (Vertex × Vertex × Vertex) :=
  match l[3 * k]?, l[3 * k + 1]?, l[3 * k + 2]? with
  | some a, some b, some c => some (a, b, c)
  | _, _, _ => none

/-- The primitive-assembly stage of `render` (`src/main.rs` lines 150–160):
the loop visits `i = 0, 3, 6, …` below `len` (`step_by(3)`), pushing the
triple at `i, i+1, i+2` only when `i + 2 < len`.  The multiples of 3 below
`len` are exactly `3k` for `k < (len + 2) / 3`. -/
def assemble_triangles (l : List Vertex) : List (Vertex × Vertex × Vertex) :=
  (List.range ((l.length + 2) / 3)).filterMap (assemble_pick l)

/-- Structural form of `assemble_triangles`: consume three vertices at a time,
dropping a trailing group of fewer than three. -/
def assemble_triangles_rec : List Vertex → List (Vertex × Vertex × Vertex)
  | a :: b :: c :: rest => (a, b, c) :: assemble_triangles_rec rest
  | _ => []

theorem getElem?_cons_cons_cons {α : Type} (a b c : α) (t : List α) (n : ℕ) :
    (a :: b :: c :: t)[n + 3]? = t[n]? := by
  rw [(by omega : n + 3 = n + 2 + 1), List.getElem?_cons_succ,
    (by omega : n + 2 = n + 1 + 1), List.getElem?_cons_succ,
    List.getElem?_cons_succ]

theorem assemble_pick_zero (a b c : Vertex) (rest : List Vertex) :
    assemble_pick (a :: b :: c :: rest) 0 = some (a, b, c) := by
  simp [assemble_pick]

theorem assemble_pick_succ (a b c : Vertex) (rest : List Vertex) (k : ℕ) :
    assemble_pick (a :: b :: c :: rest) (k + 1) = assemble_pick rest k := by
  unfold assemble_pick
  rw [(by omega : 3 * (k + 1) + 2 = 3 * k + 2 + 3),
    (by omega : 3 * (k + 1) + 1 = 3 * k + 1 + 3),
    (by omega : 3 * (k + 1) = 3 * k + 3),
    getElem?_cons_cons_cons, getElem?_cons_cons_cons, getElem?_cons_cons_cons]

theorem assemble_triangles_eq_rec :
    ∀ l : List Vertex, assemble_triangles l = assemble_triangles_rec l
  | [] => rfl
  | [x] => by simp [assemble_triangles, assemble_pick, assemble_triangles_rec]
  | [x, y] => by simp [assemble_triangles, assemble_pick, assemble_triangles_rec]
  | a :: b :: c :: rest => by
    show assemble_triangles (a :: b :: c :: rest) =
      (a, b, c) :: assemble_triangles_rec rest
    rw [← assemble_triangles_eq_rec rest]
    unfold assemble_triangles
    rw [(by simp only [List.length_cons]; omega :
        ((a :: b :: c :: rest).length + 2) / 3 = (rest.length + 2) / 3 + 1),
      List.range_succ_eq_map, List.filterMap_cons, assemble_pick_zero,
      List.filterMap_map]
    show (a, b, c) :: (List.range ((rest.length + 2) / 3)).filterMap
        (assemble_pick (a :: b :: c :: rest) ∘ Nat.succ) = _
    refine congrArg _ (List.filterMap_congr fun k _ => ?_)
    show assemble_pick (a :: b :: c :: rest) (Nat.succ k) = assemble_pick rest k
    rw [Nat.succ_eq_add_one, assemble_pick_succ]

theorem assemble_triangles_rec_length :
    ∀ l : List Vertex, (assemble_triangles_rec l).length = l.length / 3
  | [] => rfl
  | [x] => by simp [assemble_triangles_rec]
  | [x, y] => by simp [assemble_triangles_rec]
  | a :: b :: c :: rest => by
    show ((a, b, c) :: assemble_triangles_rec rest).length =
      (a :: b :: c :: rest).length / 3
    rw [List.length_cons, assemble_triangles_rec_length rest]
    simp only [List.length_cons]
    omega

theorem assemble_triangles_rec_getElem :
    ∀ (l : List Vertex) (k : ℕ), k < l.length / 3 →
      ∃ a b c, l[3 * k]? = some a ∧ l[3 * k + 1]? = some b ∧
        l[3 * k + 2]? = some c ∧ (assemble_triangles_rec l)[k]? = some (a, b, c)
  | [], k, hk => absurd hk (by simp only [List.length_nil]; omega)
  | [_], k, hk => absurd hk (by simp only [List.length_cons, List.length_nil]; omega)
  | [_, _], k, hk => absurd hk (by simp only [List.length_cons, List.length_nil]; omega)
  | a :: b :: c :: rest, 0, _ => by
    refine ⟨a, b, c, ?_, ?_, ?_, ?_⟩ <;> simp [assemble_triangles_rec]
  | a :: b :: c :: rest, k + 1, hk => by
    have hk' : k < rest.length / 3 := by
      simp only [List.length_cons] at hk; omega
    obtain ⟨x, y, z, hx, hy, hz, hidx⟩ := assemble_triangles_rec_getElem rest k hk'
    refine ⟨x, y, z, ?_, ?_, ?_, ?_⟩
    · rw [(by omega : 3 * (k + 1) = 3 * k + 3), getElem?_cons_cons_cons, hx]
    · rw [(by omega : 3 * (k + 1) + 1 = 3 * k + 1 + 3), getElem?_cons_cons_cons, hy]
    · rw [(by omega : 3 * (k + 1) + 2 = 3 * k + 2 + 3), getElem?_cons_cons_cons, hz]
    · show ((a, b, c) :: assemble_triangles_rec rest)[k + 1]? = some (x, y, z)
      rw [List.getElem?_cons_succ, hidx]

/-- Claim C10: primitive assembly groups the transformed vertex list into
consecutive non-overlapping triples: exactly `⌊n/3⌋` triangles are assembled,
the `k`-th being the vertices at indices `3k, 3k+1, 3k+2`, so the trailing
`n mod 3` vertices are dropped. -/
theorem primitive_assembly_consecutive_triples (l : List Vertex) :
    (assemble_triangles l).length = l.length / 3 ∧
      ∀ k, k < l.length / 3 →
        ∃ a b c, l[3 * k]? = some a ∧ l[3 * k + 1]? = some b ∧
          l[3 * k + 2]? = some c ∧
          (assemble_triangles l)[k]? = some (a, b, c) := by
  rw [assemble_triangles_eq_rec]
  exact ⟨assemble_triangles_rec_length l, assemble_triangles_rec_getElem l⟩

/-- Witness for claim C10: a list of four vertices assembles into exactly one
triangle, made of its first three vertices (the fourth is dropped). -/
theorem primitive_assembly_consecutive_triples_witness :
    (assemble_triangles
        [sample_vertex 0, sample_vertex 1, sample_vertex 2, sample_vertex 3]).length =
        [sample_vertex 0, sample_vertex 1, sample_vertex 2, sample_vertex 3].length / 3 ∧
      ∃ a b c,
        [sample_vertex 0, sample_vertex 1, sample_vertex 2, sample_vertex 3][3 * 0]? =
            some a ∧
          [sample_vertex 0, sample_vertex 1, sample_vertex 2, sample_vertex 3][3 * 0 + 1]? =
            some b ∧
          [sample_vertex 0, sample_vertex 1, sample_vertex 2, sample_vertex 3][3 * 0 + 2]? =
            some c ∧
          (assemble_triangles
              [sample_vertex 0, sample_vertex 1, sample_vertex 2, sample_vertex 3])[0]? =
            some (a, b, c) :=
  ⟨(primitive_assembly_consecutive_triples
      [sample_vertex 0, sample_vertex 1, sample_vertex 2, sample_vertex 3]).1,
    (primitive_assembly_consecutive_triples
      [sample_vertex 0, sample_vertex 1, sample_vertex 2, sample_vertex 3]).2 0
      (by simp only [List.length_cons, List.length_nil]; omega)⟩

/-- One candidate pixel write: screen coordinates after the `as usize` casts,
the depth passed to `point`, and the paint color set just before. -/
structure PointWrite where
  x : ℕ
  y : ℕ
  depth : ℚ
  color : ℕ
deriving DecidableEq, Repr

/-- Rust's `as usize` cast from `f32`, on exact values: truncation toward
zero, saturating at `0` and `usize::MAX`. -/
def rat_to_usize (q : ℚ) : ℕ :=
  if q < 0 then 0 else min q.floor.toNat (2 ^ 64 - 1)

/-- `draw_line` from `src/main.rs` lines 119–131: 100 steps, parameter
`t = i / (steps − 1) = i / 99`, position interpolated componentwise as
`start·(1−t) + end·t`, screen coordinates `width·(x+1)/2` and
`height·(y+1)/2` cast to `usize`, and the interpolated `z` passed as the
depth of the point-write. -/
def draw_line (width height : ℕ) (start endp : V3 ℚ) (color : ℕ) :
    List PointWrite :=
  (List.range 100).map fun (i : ℕ) =>
    let t : ℚ := (i : ℚ) / 99
    let x := start.x * (1 - t) + endp.x * t
    let y := start.y * (1 - t) + endp.y * t
    let z := start.z * (1 - t) + endp.z * t
    { x := rat_to_usize ((width : ℚ) * (x + 1) / 2),
      y := rat_to_usize ((height : ℚ) * (y + 1) / 2),
      depth := z,
      color := color }

/-- Claim C8: `draw_line` emits exactly 100 candidate points; the `i`-th
(0 ≤ i < 100) lies at `start·(1−t) + end·t` with `t = i/99`, its depth is the
interpolated `z`, and its screen coordinates are `width·(x+1)/2` and
`height·(y+1)/2` (cast to pixel indices). -/
theorem draw_line_interpolates_100_points (width height : ℕ)
    (start endp : V3 ℚ) (color : ℕ) :
    (draw_line width height start endp color).length = 100 ∧
      ∀ i, i < 100 →
        (draw_line width height start endp color)[i]? =
          some
            { x := rat_to_usize ((width : ℚ) *
                ((start.x * (1 - (i : ℚ) / 99) + endp.x * ((i : ℚ) / 99)) + 1) / 2),
              y := rat_to_usize ((height : ℚ) *
                ((start.y * (1 - (i : ℚ) / 99) + endp.y * ((i : ℚ) / 99)) + 1) / 2),
              depth := start.z * (1 - (i : ℚ) / 99) + endp.z * ((i : ℚ) / 99),
              color := color } := by
  constructor
  · simp only [draw_line, List.length_map, List.length_range]
  · intro i hi
    simp only [draw_line, List.getElem?_map, List.getElem?_range hi,
      Option.map_some']

/-- Witness for claim C8: the first point of the trail segment from
`(-1, -1, 0)` to `(1, 1, 1)` on the 800×600 framebuffer is the segment start,
mapped to pixel `(0, 0)` at depth `0`. -/
theorem draw_line_interpolates_100_points_witness :
    (draw_line 800 600 ⟨-1, -1, 0⟩ ⟨1, 1, 1⟩ 0xFF0000)[0]? =
      some { x := 0, y := 0, depth := 0, color := 0xFF0000 } := by
  have h := (draw_line_interpolates_100_points 800 600 ⟨-1, -1, 0⟩ ⟨1, 1, 1⟩
    0xFF0000).2 0 (by norm_num)
  norm_num at h
  rw [h]
  simp [rat_to_usize, Rat.floor]

/-- Claim C6: for every framebuffer width `w`, height `h`, and every
normalized-device-coordinate point `(x, y, z)`, applying the viewport matrix
yields pixel coordinates `((w/2)·x + w/2, −(h/2)·y + h/2, z)`: the Y axis is
vertically flipped and the depth component passes through unchanged. -/
theorem viewport_matrix_maps_ndc_to_pixels (w h x y z : ℚ) :
    (create_viewport_matrix w h).mulVec ⟨x, y, z, 1⟩ =
      ⟨w / 2 * x + w / 2, -(h / 2) * y + h / 2, z, 1⟩ := by
  simp only [create_viewport_matrix, M4.mulVec, V4.mk.injEq]
  refine ⟨by ring, by ring, by ring, by ring⟩

/-- The modulus of Rust's 64-bit `usize`. -/
def usizeSize : ℕ := 2 ^ 64

/-- Wrapping subtraction on `usize` values below the modulus, the semantics of
Rust's `-` on `usize` in release builds (debug builds panic on underflow). -/
def usize_sub (a b : ℕ) : ℕ :=
  (a + (usizeSize - b % usizeSize)) % usizeSize

/-- The candidate pixel coordinates written for one skybox star, from
`Skybox::render_sb` (`src/skybox.rs` lines 65–94): after the anchor `(x, y)`
passes the `x < width && y < height` guard, a star of size 1 writes its anchor,
size 2 a 2×2 block, and size 3 a plus-shaped set whose left and top neighbours
are computed with the unguarded `usize` subtractions `x - 1` and `y - 1`. -/
def star_candidate_writes (width height : ℕ) (size : ℕ) (x y : ℕ) :
    List (ℕ × ℕ) :=
  if x < width ∧ y < height then
    match size with
    | 1 => [(x, y)]
    | 2 => [(x, y), (x + 1, y), (x, y + 1), (x + 1, y + 1)]
    | 3 => [(x, y), (usize_sub x 1, y), (x + 1, y), (x, usize_sub y 1), (x, y + 1)]
    | _ => []
  else []

/-- Claim C4 fails on the code: a size-3 star whose in-window anchor is
`(0, 5)` in the 800×600 framebuffer reaches the unguarded `x - 1`, which
wraps to `2^64 − 1` (release builds; debug builds panic), producing a silently
wrapped out-of-bounds candidate coordinate rather than a guarded no-op. -/
theorem skybox_size3_star_at_left_edge_wraps :
    star_candidate_writes 800 600 3 0 5 =
        [(0, 5), (18446744073709551615, 5), (1, 5), (0, 4), (0, 6)] ∧
      ¬ 18446744073709551615 < 800 := by
  refine ⟨?_, by decide⟩
  rw [star_candidate_writes, if_pos ⟨by decide, by decide⟩]
  rfl

/-- Modelled from the spec: `shaders.rs` (module `shaders`) is absent from
`src/`; the spec describes `planet_orbit(time, radius, speed)` as a pure
function of its three arguments placing the body on a circular orbit of the
given radius at angle `speed * time`.  The `f32` cosine and sine it uses are
themselves pure; they are embedded as the fixed polynomial stand-ins
`rat_cos` and `rat_sin`. -/
def rat_cos (θ : ℚ) : ℚ := 1 - θ ^ 2 / 2 + θ ^ 4 / 24 - θ ^ 6 / 720

/-- Modelled from the spec: fixed polynomial stand-in for the pure `f32` sine
used by the orbital-position helpers of the absent `shaders.rs`. -/
def rat_sin (θ : ℚ) : ℚ := θ - θ ^ 3 / 6 + θ ^ 5 / 120

/-- Modelled from the spec: the planet orbital-position helper
`planet_orbit(time, radius, speed)` of the absent `shaders.rs`, a pure
function of (time, radius, angular speed). -/
def planet_orbit (time radius speed : ℚ) : V3 ℚ :=
  ⟨radius * rat_cos (speed * time), 0, radius * rat_sin (speed * time)⟩

/-- Modelled from the spec: the moon-position helper `moon_position(time,
radius)` of the absent `shaders.rs`, a pure function of (time, radius). -/
def moon_position (time radius : ℚ) : V3 ℚ :=
  ⟨radius * rat_cos time, 0, radius * rat_sin time⟩

/-- Claim C7: the orbital-position helpers are deterministic — two calls to
`planet_orbit` with identical (time, radius, angular-speed) inputs, and two
calls to `moon_position` with identical (time, radius) inputs, return
identical outputs. -/
theorem orbital_helpers_deterministic (t t' r r' s s' : ℚ)
    (ht : t = t') (hr : r = r') (hs : s = s') :
    planet_orbit t r s = planet_orbit t' r' s' ∧
      moon_position t r = moon_position t' r' := by
  subst ht; subst hr; subst hs
  exact ⟨rfl, rfl⟩

/-- Witness for claim C7 at concrete inputs (the time/radius/speed values the
frame driver uses for the second planet). -/
theorem orbital_helpers_deterministic_witness :
    planet_orbit 5 10 (3 / 250) = planet_orbit 5 10 (3 / 250) ∧
      moon_position 5 10 = moon_position 5 10 :=
  orbital_helpers_deterministic 5 5 10 10 (3 / 250) (3 / 250) rfl rfl rfl

/-- One step of orbit-trail recording from the frame driver
(`src/main.rs` lines 293–296): if the trail holds more than 1000 positions the
oldest (index 0) is removed, then the new position is appended. -/
def orbit_trail_push (trail : List (V3 ℚ)) (p : V3 ℚ) : List (V3 ℚ) :=
  (if 1000 < trail.length then trail.eraseIdx 0 else trail) ++ [p]

/-- The trail obtained by recording a whole sequence of positions in order,
starting from the empty trail. -/
def orbit_trail_of (positions : List (V3 ℚ)) : List (V3 ℚ) :=
  positions.foldl orbit_trail_push []

theorem orbit_trail_of_eq_drop (l : List (V3 ℚ)) :
    orbit_trail_of l = l.drop (l.length - 1001) := by
  induction l using List.reverseRecOn with
  | nil => rfl
  | append_singleton l p ih =>
    have hstep : orbit_trail_of (l ++ [p]) = orbit_trail_push (orbit_trail_of l) p := by
      simp [orbit_trail_of, List.foldl_append]
    rw [hstep, ih]
    by_cases hn : l.length ≤ 1000
    · have h1 : l.length - 1001 = 0 := by omega
      have h2 : (l ++ [p]).length - 1001 = 0 := by simp; omega
      rw [h1, h2, List.drop_zero, List.drop_zero, orbit_trail_push,
        if_neg (by omega)]
    · push_neg at hn
      have hlen : (l.drop (l.length - 1001)).length = 1001 := by
        simp [List.length_drop]; omega
      rw [orbit_trail_push, if_pos (by omega), List.eraseIdx_zero,
        List.tail_drop]
      have h3 : l.length - 1001 + 1 = l.length - 1000 := by omega
      have h4 : (l ++ [p]).length - 1001 = l.length - 1000 := by
        simp only [List.length_append, List.length_singleton]; omega
      rw [h3, h4, List.drop_append_of_le_length (by omega)]

/-- Claim C3: the orbit trail is a bounded ordered sequence with
oldest-dropped-first semantics: recording `N` positions with `N` above the
cap leaves exactly the cap-many most recent positions, in order, the oldest
`N − cap` entries absent.  The frame driver's guard `len > 1000` runs before
the push, so the effective cap is 1001. -/
theorem orbit_trail_bounded (l : List (V3 ℚ)) (h : 1001 < l.length) :
    (orbit_trail_of l).length = 1001 ∧
      orbit_trail_of l = l.drop (l.length - 1001) := by
  refine ⟨?_, orbit_trail_of_eq_drop l⟩
  rw [orbit_trail_of_eq_drop l]
  simp [List.length_drop]; omega

/-- Witness for claim C3: recording 1002 positions leaves a trail of length
1001 equal to the last 1001 positions recorded. -/
theorem orbit_trail_bounded_witness :
    (orbit_trail_of (List.replicate 1002 (⟨0, 0, 0⟩ : V3 ℚ))).length = 1001 ∧
      orbit_trail_of (List.replicate 1002 (⟨0, 0, 0⟩ : V3 ℚ)) =
        (List.replicate 1002 (⟨0, 0, 0⟩ : V3 ℚ)).drop
          ((List.replicate 1002 (⟨0, 0, 0⟩ : V3 ℚ)).length - 1001) :=
  orbit_trail_bounded (List.replicate 1002 ⟨0, 0, 0⟩)
    (by rw [List.length_replicate]; omega)

/-- Rotation about the X axis, the `rotation_matrix_x` of `create_model_matrix`
(`src/main.rs` lines 38–43), with `(sx, cx)` standing for `rotation.x.sin_cos()`. -/
def rotation_matrix_x (sx cx : ℚ) : M4 :=
  ⟨1, 0, 0, 0,
   0, cx, -sx, 0,
   0, sx, cx, 0,
   0, 0, 0, 1⟩

/-- Rotation about the Y axis, the `rotation_matrix_y` of `create_model_matrix`
(`src/main.rs` lines 45–50). -/
def rotation_matrix_y (sy cy : ℚ) : M4 :=
  ⟨cy, 0, sy, 0,
   0, 1, 0, 0,
   -sy, 0, cy, 0,
   0, 0, 0, 1⟩

/-- Rotation about the Z axis, the `rotation_matrix_z` of `create_model_matrix`
(`src/main.rs` lines 52–57). -/
def rotation_matrix_z (sz cz : ℚ) : M4 :=
  ⟨cz, -sz, 0, 0,
   sz, cz, 0, 0,
   0, 0, 1, 0,
   0, 0, 0, 1⟩

/-- The combined Euler rotation `rotation_matrix_z * rotation_matrix_y *
rotation_matrix_x` of `src/main.rs` line 59 (the Rust `*` is left-associative). -/
def rotation_matrix_zyx (sx cx sy cy sz cz : ℚ) : M4 :=
  ((rotation_matrix_z sz cz).mul (rotation_matrix_y sy cy)).mul (rotation_matrix_x sx cx)

/-- The `transform_matrix` of `create_model_matrix` (`src/main.rs` lines 61–66):
uniform scale on the diagonal and the translation in the last column. -/
def transform_matrix (scale : ℚ) (translation : V3 ℚ) : M4 :=
  ⟨scale, 0, 0, translation.x,
   0, scale, 0, translation.y,
   0, 0, scale, translation.z,
   0, 0, 0, 1⟩

/-- `create_model_matrix` from `src/main.rs` lines 33–69, returning
`transform_matrix * rotation_matrix`.  The sines and cosines of the three
Euler angles are passed explicitly as `(sx, cx, sy, cy, sz, cz)`. -/
def create_model_matrix (translation : V3 ℚ) (scale : ℚ)
    (sx cx sy cy sz cz : ℚ) : M4 :=
  (transform_matrix scale translation).mul (rotation_matrix_zyx sx cx sy cy sz cz)

/-- Modelled from the spec: the spec's description of the model matrix as "a
4×4 affine matrix combining uniform scale s and translation t, right-multiplied
by the rotation matrix Rz·Ry·Rx", written out independently of the source
factorization with the standard Euler rotation matrices. -/
def model_matrix_of_spec (t : V3 ℚ) (s : ℚ) (sx cx sy cy sz cz : ℚ) : M4 :=
  M4.mul
    ⟨s, 0, 0, t.x,
     0, s, 0, t.y,
     0, 0, s, t.z,
     0, 0, 0, 1⟩
    (M4.mul
      (M4.mul
        ⟨cz, -sz, 0, 0,
         sz, cz, 0, 0,
         0, 0, 1, 0,
         0, 0, 0, 1⟩
        ⟨cy, 0, sy, 0,
         0, 1, 0, 0,
         -sy, 0, cy, 0,
         0, 0, 0, 1⟩)
      ⟨1, 0, 0, 0,
       0, cx, -sx, 0,
       0, sx, cx, 0,
       0, 0, 0, 1⟩)

/-- Claim C5: the model matrix built by `create_model_matrix` equals the 4×4
affine matrix combining uniform scale `s` and translation `t`, right-multiplied
by the rotation matrix `Rz·Ry·Rx`; consequently its action on any point `p`
is `t + s • (R p)`, i.e. the rotation is applied in object-local space before
scale and translation. -/
theorem model_matrix_is_scale_translate_after_rotation
    (t : V3 ℚ) (s : ℚ) (sx cx sy cy sz cz : ℚ) :
    create_model_matrix t s sx cx sy cy sz cz =
        model_matrix_of_spec t s sx cx sy cy sz cz ∧
      ∀ p : V3 ℚ,
        (create_model_matrix t s sx cx sy cy sz cz).apply3 p =
          t + s • (rotation_matrix_zyx sx cx sy cy sz cz).apply3 p := by
  constructor
  · rfl
  · intro p
    simp only [create_model_matrix, transform_matrix, rotation_matrix_zyx,
      rotation_matrix_x, rotation_matrix_y, rotation_matrix_z, M4.mul,
      M4.apply3, M4.mulVec, V3.add_def, V3.smul_def, V3.mk.injEq]
    refine ⟨by ring, by ring, by ring⟩

instance {α : Type} [Zero α] : Zero (V3 α) :=
  ⟨⟨0, 0, 0⟩⟩

@[simp] theorem V3.zero_def {α : Type} [Zero α] :
    (0 : V3 α) = ⟨0, 0, 0⟩ := rfl

/-- Squared Euclidean norm of a real 3-vector. -/
def V3.normSq (v : V3 ℝ) : ℝ := v.dot v

/-- `nalgebra` `magnitude`: the Euclidean norm, in exact real arithmetic. -/
noncomputable def V3.magnitude (v : V3 ℝ) : ℝ := Real.sqrt v.normSq

/-- `nalgebra` `normalize`: the vector divided componentwise by its norm. -/
noncomputable def V3.normalize (v : V3 ℝ) : V3 ℝ := (1 / v.magnitude) • v

/-- `nalgebra_glm::rotate_vec3(v, angle, axis)`: rotation of `v` by `angle`
about `axis` in Rodrigues form (exact for a unit axis, which is how the
camera code uses it), with the sine and cosine of the angle passed
explicitly as `(s, c)`. -/
def rotate_vec3 (v : V3 ℝ) (s c : ℝ) (axis : V3 ℝ) : V3 ℝ :=
  c • v + s • axis.cross v + ((1 - c) * axis.dot v) • axis

theorem V3.normSq_nonneg (v : V3 ℝ) : 0 ≤ v.normSq := by
  simp only [V3.normSq, V3.dot]
  nlinarith [mul_self_nonneg v.x, mul_self_nonneg v.y, mul_self_nonneg v.z]

theorem V3.normSq_eq_zero_iff (v : V3 ℝ) : v.normSq = 0 ↔ v = 0 := by
  constructor
  · intro h
    simp only [V3.normSq, V3.dot] at h
    have hx : v.x = 0 := by
      nlinarith [mul_self_nonneg v.x, mul_self_nonneg v.y, mul_self_nonneg v.z]
    have hy : v.y = 0 := by
      nlinarith [mul_self_nonneg v.x, mul_self_nonneg v.y, mul_self_nonneg v.z]
    have hz : v.z = 0 := by
      nlinarith [mul_self_nonneg v.x, mul_self_nonneg v.y, mul_self_nonneg v.z]
    rw [V3.zero_def, V3.ext_iff']
    exact ⟨hx, hy, hz⟩
  · intro h
    subst h
    simp [V3.normSq, V3.dot]

theorem V3.normSq_pos (v : V3 ℝ) (h : v ≠ 0) : 0 < v.normSq :=
  lt_of_le_of_ne (V3.normSq_nonneg v) fun h0 => h ((V3.normSq_eq_zero_iff v).mp h0.symm)

theorem V3.magnitude_nonneg (v : V3 ℝ) : 0 ≤ v.magnitude :=
  Real.sqrt_nonneg _

theorem V3.normSq_smul (a : ℝ) (v : V3 ℝ) :
    (a • v).normSq = a ^ 2 * v.normSq := by
  simp only [V3.normSq, V3.dot, V3.smul_def]
  ring

theorem V3.magnitude_smul (a : ℝ) (v : V3 ℝ) :
    (a • v).magnitude = |a| * v.magnitude := by
  rw [V3.magnitude, V3.normSq_smul, Real.sqrt_mul (sq_nonneg a),
    Real.sqrt_sq_eq_abs, V3.magnitude]

theorem V3.normSq_normalize (v : V3 ℝ) (h : v ≠ 0) :
    v.normalize.normSq = 1 := by
  have hs : v.normSq ≠ 0 := ne_of_gt (V3.normSq_pos v h)
  rw [V3.normalize, V3.normSq_smul]
  calc (1 / v.magnitude) ^ 2 * v.normSq
      = v.normSq / Real.sqrt v.normSq ^ 2 := by rw [V3.magnitude]; ring
    _ = v.normSq / v.normSq := by rw [Real.sq_sqrt (V3.normSq_nonneg v)]
    _ = 1 := div_self hs

theorem V3.magnitude_normalize (v : V3 ℝ) (h : v ≠ 0) :
    v.normalize.magnitude = 1 := by
  rw [V3.magnitude, V3.normSq_normalize v h, Real.sqrt_one]

theorem rotate_vec3_normSq (v : V3 ℝ) (s c : ℝ) (axis : V3 ℝ)
    (hax : axis.normSq = 1) (hsc : s ^ 2 + c ^ 2 = 1) :
    (rotate_vec3 v s c axis).normSq = v.normSq := by
  simp only [V3.normSq, V3.dot, V3.cross, rotate_vec3, V3.add_def,
    V3.smul_def] at hax ⊢
  linear_combination
    (v.x * v.x + v.y * v.y + v.z * v.z -
        (axis.x * v.x + axis.y * v.y + axis.z * v.z) ^ 2) * hsc +
      (s ^ 2 * (v.x * v.x + v.y * v.y + v.z * v.z) +
        (1 - c) ^ 2 * (axis.x * v.x + axis.y * v.y + axis.z * v.z) ^ 2) * hax

/-- The `Camera` of `src/camera.rs`: eye and look-at center positions, the up
vector, and the change flag. -/
structure Camera where
  eye : V3 ℝ
  center : V3 ℝ
  up : V3 ℝ
  has_changed : Bool

/-- The translation vector built by `Camera::move_ship` (`src/camera.rs`
lines 36–47): the input direction resolved against the camera's orthonormal
forward/right/up frame, `right * direction.x + up * direction.y +
forward * direction.z`. -/
noncomputable def Camera.ms_movement (cam : Camera) (direction : V3 ℝ) : V3 ℝ :=
  let forward := (cam.center - cam.eye).normalize
  let right := (forward.cross cam.up).normalize
  let up := (right.cross forward).normalize
  direction.x • right + direction.y • up + direction.z • forward

/-- `Camera::move_ship`: translate eye and center by the same movement
vector. -/
noncomputable def Camera.move_ship (cam : Camera) (direction : V3 ℝ) : Camera :=
  { cam with
    eye := cam.eye + cam.ms_movement direction,
    center := cam.center + cam.ms_movement direction,
    has_changed := true }

/-- The `rotated` intermediate of `Camera::move_center` (`src/camera.rs`
lines 20–34): the eye-to-center radius vector rotated about the world Y axis,
with `(s1, c1)` standing for the sine/cosine of `direction.x * 0.05`. -/
def Camera.mc_rotated (cam : Camera) (s1 c1 : ℝ) : V3 ℝ :=
  rotate_vec3 (cam.center - cam.eye) s1 c1 ⟨0, 1, 0⟩

/-- The `final_rotated` intermediate of `Camera::move_center`: the once-rotated
radius vector rotated again about the normalized `rotated × up` axis, with
`(s2, c2)` standing for the sine/cosine of `direction.y * 0.05`. -/
noncomputable def Camera.mc_final_rotated (cam : Camera) (s1 c1 s2 c2 : ℝ) : V3 ℝ :=
  rotate_vec3 (cam.mc_rotated s1 c1) s2 c2
    (((cam.mc_rotated s1 c1).cross cam.up).normalize)

/-- `Camera::move_center`: the new center is the eye plus the normalized
twice-rotated direction scaled by the previous eye-to-center distance. -/
noncomputable def Camera.move_center (cam : Camera) (s1 c1 s2 c2 : ℝ) : Camera :=
  { cam with
    center := cam.eye +
      (cam.center - cam.eye).magnitude • (cam.mc_final_rotated s1 c1 s2 c2).normalize,
    has_changed := true }

/-- The `rotated_forward` intermediate of `Camera::rotate_ship`
(`src/camera.rs` lines 50–63): the normalized forward direction rotated about
the up vector. -/
noncomputable def Camera.rs_rotated_forward (cam : Camera) (s1 c1 : ℝ) : V3 ℝ :=
  rotate_vec3 (cam.center - cam.eye).normalize s1 c1 cam.up

/-- The `final_rotated` intermediate of `Camera::rotate_ship`: the rotated
forward direction rotated again about the normalized `rotated_forward × up`
axis. -/
noncomputable def Camera.rs_final_rotated (cam : Camera) (s1 c1 s2 c2 : ℝ) : V3 ℝ :=
  rotate_vec3 (cam.rs_rotated_forward s1 c1) s2 c2
    (((cam.rs_rotated_forward s1 c1).cross cam.up).normalize)

/-- `Camera::rotate_ship`: the new center is the eye plus the twice-rotated
unit forward direction scaled by the current eye-to-center magnitude. -/
noncomputable def Camera.rotate_ship (cam : Camera) (s1 c1 s2 c2 : ℝ) : Camera :=
  { cam with
    center := cam.eye +
      (cam.center - cam.eye).magnitude • cam.rs_final_rotated s1 c1 s2 c2,
    has_changed := true }

/-- Claim C9: every Camera operation preserves the eye-to-center distance in
exact real arithmetic.  `move_ship` translates eye and center by the same
vector, so `center − eye` is unchanged outright; `move_center` rescales the
twice-rotated direction to the previous radius, and `rotate_ship` scales a
rotated unit forward direction by the current radius, each preserving the
distance under the evident nondegeneracy conditions (nonzero rotated
direction, nonzero eye-to-center vector, unit up vector, genuine
sine/cosine pairs, nonparallel rotation axis). -/
theorem camera_ops_preserve_eye_center_distance :
    (∀ (cam : Camera) (d : V3 ℝ),
        (cam.move_ship d).center - (cam.move_ship d).eye =
          cam.center - cam.eye) ∧
      (∀ (cam : Camera) (s1 c1 s2 c2 : ℝ),
          cam.mc_final_rotated s1 c1 s2 c2 ≠ 0 →
          ((cam.move_center s1 c1 s2 c2).center -
              (cam.move_center s1 c1 s2 c2).eye).magnitude =
            (cam.center - cam.eye).magnitude) ∧
      ∀ (cam : Camera) (s1 c1 s2 c2 : ℝ),
        cam.center - cam.eye ≠ 0 → cam.up.normSq = 1 →
        s1 ^ 2 + c1 ^ 2 = 1 → s2 ^ 2 + c2 ^ 2 = 1 →
        (cam.rs_rotated_forward s1 c1).cross cam.up ≠ 0 →
        ((cam.rotate_ship s1 c1 s2 c2).center -
            (cam.rotate_ship s1 c1 s2 c2).eye).magnitude =
          (cam.center - cam.eye).magnitude := by
  refine ⟨?_, ?_, ?_⟩
  · intro cam d
    simp only [Camera.move_ship, V3.add_def, V3.sub_def, V3.mk.injEq]
    refine ⟨by ring, by ring, by ring⟩
  · intro cam s1 c1 s2 c2 hfr
    have hdiff : (cam.move_center s1 c1 s2 c2).center -
        (cam.move_center s1 c1 s2 c2).eye =
        (cam.center - cam.eye).magnitude •
          (cam.mc_final_rotated s1 c1 s2 c2).normalize := by
      simp only [Camera.move_center, V3.add_def, V3.sub_def, V3.smul_def,
        V3.mk.injEq]
      refine ⟨by ring, by ring, by ring⟩
    rw [hdiff, V3.magnitude_smul, V3.magnitude_normalize _ hfr, mul_one,
      abs_of_nonneg (V3.magnitude_nonneg _)]
  · intro cam s1 c1 s2 c2 hne hup hsc1 hsc2 hcross
    have h1 : (cam.rs_rotated_forward s1 c1).normSq = 1 := by
      rw [Camera.rs_rotated_forward, rotate_vec3_normSq _ _ _ _ hup hsc1,
        V3.normSq_normalize _ hne]
    have haxis : (((cam.rs_rotated_forward s1 c1).cross cam.up).normalize).normSq = 1 :=
      V3.normSq_normalize _ hcross
    have h2 : (cam.rs_final_rotated s1 c1 s2 c2).normSq = 1 := by
      rw [Camera.rs_final_rotated, rotate_vec3_normSq _ _ _ _ haxis hsc2, h1]
    have hmagfr : (cam.rs_final_rotated s1 c1 s2 c2).magnitude = 1 := by
      rw [V3.magnitude, h2, Real.sqrt_one]
    have hdiff : (cam.rotate_ship s1 c1 s2 c2).center -
        (cam.rotate_ship s1 c1 s2 c2).eye =
        (cam.center - cam.eye).magnitude • cam.rs_final_rotated s1 c1 s2 c2 := by
      simp only [Camera.rotate_ship, V3.add_def, V3.sub_def, V3.smul_def,
        V3.mk.injEq]
      refine ⟨by ring, by ring, by ring⟩
    rw [hdiff, V3.magnitude_smul, hmagfr, mul_one,
      abs_of_nonneg (V3.magnitude_nonneg _)]

/-- A unit-distance camera used by the claim C9 witness. -/
def unit_camera : Camera :=
  ⟨⟨0, 0, 0⟩, ⟨0, 0, 1⟩, ⟨0, 1, 0⟩, true⟩

/-- Witness for claim C9: the three camera operations at eye `(0,0,0)`,
center `(0,0,1)`, up `(0,1,0)`, with zero rotation angles (sine 0, cosine 1),
preserve the eye-to-center offset and distance. -/
theorem camera_ops_preserve_eye_center_distance_witness :
    ((unit_camera.move_ship ⟨1, 2, 3⟩).center -
        (unit_camera.move_ship ⟨1, 2, 3⟩).eye =
        unit_camera.center - unit_camera.eye) ∧
      ((unit_camera.move_center 0 1 0 1).center -
          (unit_camera.move_center 0 1 0 1).eye).magnitude =
        (unit_camera.center - unit_camera.eye).magnitude ∧
      ((unit_camera.rotate_ship 0 1 0 1).center -
          (unit_camera.rotate_ship 0 1 0 1).eye).magnitude =
        (unit_camera.center - unit_camera.eye).magnitude :=
  ⟨camera_ops_preserve_eye_center_distance.1 unit_camera ⟨1, 2, 3⟩,
    camera_ops_preserve_eye_center_distance.2.1 unit_camera 0 1 0 1
      (by
        simp only [Camera.mc_final_rotated, Camera.mc_rotated, unit_camera,
          rotate_vec3, V3.sub_def, V3.add_def, V3.smul_def, V3.cross, V3.dot,
          V3.zero_def, ne_eq, V3.mk.injEq, not_and]
        norm_num),
    camera_ops_preserve_eye_center_distance.2.2 unit_camera 0 1 0 1
      (by
        simp only [unit_camera, V3.sub_def, V3.zero_def, ne_eq, V3.mk.injEq,
          not_and]
        norm_num)
      (by
        simp only [unit_camera, V3.normSq, V3.dot]
        norm_num)
      (by norm_num)
      (by norm_num)
      (by
        simp only [Camera.rs_rotated_forward, unit_camera, rotate_vec3,
          V3.normalize, V3.magnitude, V3.normSq, V3.dot, V3.sub_def,
          V3.add_def, V3.smul_def, V3.cross, V3.zero_def, ne_eq, V3.mk.injEq,
          not_and]
        norm_num [Real.sqrt_one])⟩
